import Mathlib

/-!
Verification development for a contact-book program (single Python source
file).  The program keeps an address book of records (name, list of phone
numbers, optional birthday), answers an upcoming-birthday query with
weekend-to-Monday shifting, and persists the book through a pickle file.

The definitions below are a shallow embedding of that source.  Python
strings are modelled as lists of characters (Unicode scalar values);
Python dates as year/month/day triples with the proleptic-Gregorian
ordinal arithmetic that the Python datetime library uses; raising an
exception is modelled with the Except monad.
-/

instance {ε α : Type} [DecidableEq ε] [DecidableEq α] : DecidableEq (Except ε α) := fun a b =>
  match a, b with
  | .error e, .error f =>
    if h : e = f then isTrue (by rw [h]) else isFalse (by intro hc; cases hc; exact h rfl)
  | .ok x, .ok y =>
    if h : x = y then isTrue (by rw [h]) else isFalse (by intro hc; cases hc; exact h rfl)
  | .error _, .ok _ => isFalse (by intro hc; cases hc)
  | .ok _, .error _ => isFalse (by intro hc; cases hc)

/-- Gregorian leap-year rule, as used by the Python datetime library. -/
def isLeap (y : Nat) : Bool :=
  decide ((y % 4 = 0 ∧ ¬ y % 100 = 0) ∨ y % 400 = 0)

/-- Number of days in a month, as used by the Python datetime library. -/
def daysInMonth (y m : Nat) : Nat :=
  if m = 2 then (if isLeap y then 29 else 28)
  else if m = 4 ∨ m = 6 ∨ m = 9 ∨ m = 11 then 30
  else 31

/-- A calendar date: the value stored by a Python datetime.date. -/
structure PyDate where
  year : Nat
  month : Nat
  day : Nat
  deriving DecidableEq

/-- Days strictly before January 1 of a year, counted from 0001-01-01
being day 1 (the quantity used by date.toordinal). -/
def daysBeforeYear (y : Nat) : Nat :=
  365 * (y - 1) + (y - 1) / 4 - (y - 1) / 100 + (y - 1) / 400

/-- Days of year y strictly before the first day of month m. -/
def daysBeforeMonth (y : Nat) : Nat → Nat
  | 0 => 0
  | m + 1 => if m = 0 then 0 else daysBeforeMonth y m + daysInMonth y m

/-- Proleptic Gregorian ordinal of a date (date.toordinal in Python):
0001-01-01 has ordinal 1. -/
def toOrdinal (d : PyDate) : Nat :=
  daysBeforeYear d.year + daysBeforeMonth d.year d.month + d.day

/-- Python date.weekday(): Monday = 0 through Sunday = 6.  Ordinal 1
(0001-01-01) is a Monday. -/
def pyWeekday (d : PyDate) : Nat :=
  (toOrdinal d + 6) % 7

/-- A year/month/day triple that the Python date constructor accepts
(leaving the upper year bound to the constructor model itself). -/
def isValidDate (d : PyDate) : Prop :=
  1 ≤ d.year ∧ 1 ≤ d.month ∧ d.month ≤ 12 ∧ 1 ≤ d.day ∧
    d.day ≤ daysInMonth d.year d.month

instance (d : PyDate) : Decidable (isValidDate d) := by
  unfold isValidDate; infer_instance

/-- Python date.replace with a new year: revalidates the fields exactly
like the date constructor and raises ValueError when the day does not
exist in the target year (for example Feb 29 in a non-leap year). -/
def pyReplaceYear (d : PyDate) (y : Nat) : Except String PyDate :=
  if ¬ (1 ≤ y ∧ y ≤ 9999) then .error "year must be in 1..9999"
  else if ¬ (1 ≤ d.month ∧ d.month ≤ 12) then .error "month must be in 1..12"
  else if ¬ (1 ≤ d.day ∧ d.day ≤ daysInMonth y d.month) then
    .error "day is out of range for month"
  else .ok { year := y, month := d.month, day := d.day }

/-- Successor date (the effect of adding timedelta(days=1) to an
in-range date). -/
def nextDay (d : PyDate) : PyDate :=
  if d.day < daysInMonth d.year d.month then { d with day := d.day + 1 }
  else if d.month < 12 then { year := d.year, month := d.month + 1, day := 1 }
  else { year := d.year + 1, month := 1, day := 1 }

/-- Adding a nonnegative timedelta to a date, one day at a time. -/
def addDays : PyDate → Nat → PyDate
  | d, 0 => d
  | d, n + 1 => addDays (nextDay d) n

/-- Difference of two dates in whole days, the .days field of the Python
timedelta obtained by subtracting the dates. -/
def daysUntil (b t : PyDate) : Int :=
  (toOrdinal b : Int) - (toOrdinal t : Int)

/-!
Character-level model of the Python string predicates used by the
source: str.isdigit and the digit matching done by strptime.
-/

/-- Membership of a code point in a list of inclusive ranges. -/
def inRanges (rs : List (Nat × Nat)) (n : Nat) : Bool :=
  rs.any (fun p => decide (p.1 ≤ n) && decide (n ≤ p.2))

/-- Modelled from the Unicode character database used by CPython: the
code-point ranges of general category Nd (decimal digits).  Every range
is one or more aligned runs of the digits 0 through 9, so the digit
value of a member is its offset into the range modulo 10.  These are the
characters matched by a regular-expression d-class and accepted by int().
The ASCII digits are the first range. -/
def ndRanges : List (Nat × Nat) :=
  [(0x30, 0x39), (0x660, 0x669), (0x6F0, 0x6F9), (0x7C0, 0x7C9),
   (0x966, 0x96F), (0x9E6, 0x9EF), (0xA66, 0xA6F), (0xAE6, 0xAEF),
   (0xB66, 0xB6F), (0xBE6, 0xBEF), (0xC66, 0xC6F), (0xCE6, 0xCEF),
   (0xD66, 0xD6F), (0xDE6, 0xDEF), (0xE50, 0xE59), (0xED0, 0xED9),
   (0xF20, 0xF29), (0x1040, 0x1049), (0x1090, 0x1099), (0x17E0, 0x17E9),
   (0x1810, 0x1819), (0x1946, 0x194F), (0x19D0, 0x19D9),
   (0x1A80, 0x1A89), (0x1A90, 0x1A99), (0x1B50, 0x1B59),
   (0x1BB0, 0x1BB9), (0x1C40, 0x1C49), (0x1C50, 0x1C59),
   (0xA620, 0xA629), (0xA8D0, 0xA8D9), (0xA900, 0xA909),
   (0xA9D0, 0xA9D9), (0xA9F0, 0xA9F9), (0xAA50, 0xAA59),
   (0xABF0, 0xABF9), (0xFF10, 0xFF19), (0x104A0, 0x104A9),
   (0x10D30, 0x10D39), (0x11066, 0x1106F), (0x110F0, 0x110F9),
   (0x11136, 0x1113F), (0x111D0, 0x111D9), (0x112F0, 0x112F9),
   (0x11450, 0x11459), (0x114D0, 0x114D9), (0x11650, 0x11659),
   (0x116C0, 0x116C9), (0x11730, 0x11739), (0x118E0, 0x118E9),
   (0x11950, 0x11959), (0x11C50, 0x11C59), (0x11D50, 0x11D59),
   (0x11DA0, 0x11DA9), (0x11F50, 0x11F59), (0x16A60, 0x16A69),
   (0x16AC0, 0x16AC9), (0x16B50, 0x16B59), (0x1D7CE, 0x1D7FF),
   (0x1E140, 0x1E149), (0x1E2F0, 0x1E2F9), (0x1E4F0, 0x1E4F9),
   (0x1E950, 0x1E959), (0x1FBF0, 0x1FBF9)]

/-- Modelled from the Unicode character database used by CPython: code
points with Numeric_Type=Digit (superscripts, subscripts, circled
digits, and similar).  str.isdigit accepts these in addition to the Nd
characters; the regular-expression d-class does not. -/
def digitTypeRanges : List (Nat × Nat) :=
  [(0xB2, 0xB3), (0xB9, 0xB9), (0x1369, 0x1371), (0x19DA, 0x19DA),
   (0x2070, 0x2070), (0x2074, 0x2079), (0x2080, 0x2089),
   (0x2460, 0x2468), (0x2474, 0x247C), (0x2488, 0x2490),
   (0x24EA, 0x24EA), (0x24F5, 0x24FD), (0x24FF, 0x24FF),
   (0x2776, 0x277E), (0x2780, 0x2788), (0x278A, 0x2792),
   (0x10A40, 0x10A43), (0x1F100, 0x1F10A)]

/-- Decimal-digit test on a code point (Unicode category Nd). -/
def isDecimalNat (n : Nat) : Bool :=
  inRanges ndRanges n

/-- Python str.isdigit, per character, on a code point. -/
def pyIsDigitNat (n : Nat) : Bool :=
  inRanges ndRanges n || inRanges digitTypeRanges n

/-- Decimal-digit test on a character. -/
def pyIsDecimalChar (c : Char) : Bool :=
  isDecimalNat c.toNat

/-- Python str.isdigit, per character. -/
def pyIsDigitChar (c : Char) : Bool :=
  pyIsDigitNat c.toNat

/-- Numeric value of a decimal-digit character, via its offset into its
Nd range (how int() reads a digit). -/
def decDigitVal (c : Char) : Nat :=
  match ndRanges.find? (fun p => decide (p.1 ≤ c.toNat) && decide (c.toNat ≤ p.2)) with
  | some p => (c.toNat - p.1) % 10
  | none => 0

/-- Python str.isdigit on a whole string: nonempty and every character
a digit. -/
def pyStrIsDigit (s : List Char) : Bool :=
  !s.isEmpty && s.all pyIsDigitChar

/-!
The field validators of the source, one per class.
-/

/-- Name field constructor: rejects the empty string. -/
def nameInit (value : List Char) : Except String (List Char) :=
  if value = [] then .error "Name cannot be empty."
  else .ok value

/-- Phone field constructor: mirrors the source check
if not value.isdigit() or len(value) != 10: raise ValueError(...).
On success the stored value is the raw string unchanged. -/
def phoneInit (value : List Char) : Except String (List Char) :=
  if pyStrIsDigit value = false ∨ value.length ≠ 10 then
    .error "Phone must contain exactly 10 digits"
  else .ok value

/-- Splitting a character list at every dot (used to decompose the
match of the strptime pattern, whose three fields are dot-free and
separated by literal dots). -/
def splitOnDot : List Char → List (List Char)
  | [] => [[]]
  | c :: cs =>
    if c = '.' then [] :: splitOnDot cs
    else
      match splitOnDot cs with
      | t :: ts => (c :: t) :: ts
      | [] => [[c]]

/-- Numeric value of an all-decimal token, as int() computes it. -/
def tokVal (t : List Char) : Nat :=
  t.foldl (fun a c => a * 10 + decDigitVal c) 0

/-- Day field of the strptime pattern for the percent-d directive.  The
CPython pattern is an alternation: literal 3 then ASCII 0 or 1; ASCII 1
or 2 then any Unicode decimal digit; ASCII 0 then ASCII 1 to 9; or a
single ASCII 1 to 9.  The token must be consumed entirely (a literal
dot follows in the full pattern). -/
def dayTokOk : List Char → Bool
  | [c] => decide ('1' ≤ c ∧ c ≤ '9')
  | [c1, c2] =>
    (decide (c1 = '3') && decide (c2 = '0' ∨ c2 = '1')) ||
    (decide (c1 = '1' ∨ c1 = '2') && pyIsDecimalChar c2) ||
    (decide (c1 = '0') && decide ('1' ≤ c2 ∧ c2 ≤ '9'))
  | _ => false

/-- Month field of the strptime pattern for the percent-m directive:
ASCII 1 then ASCII 0 to 2; ASCII 0 then ASCII 1 to 9; or a single
ASCII 1 to 9. -/
def monthTokOk : List Char → Bool
  | [c] => decide ('1' ≤ c ∧ c ≤ '9')
  | [c1, c2] =>
    (decide (c1 = '1') && decide ('0' ≤ c2 ∧ c2 ≤ '2')) ||
    (decide (c1 = '0') && decide ('1' ≤ c2 ∧ c2 ≤ '9'))
  | _ => false

/-- Year field of the strptime pattern for the percent-Y directive:
exactly four Unicode decimal digits. -/
def yearTokOk (t : List Char) : Bool :=
  decide (t.length = 4) && t.all pyIsDecimalChar

/-- Birthday field constructor: mirrors
datetime.strptime(value, percent-d dot percent-m dot percent-Y).date()
with every failure (pattern mismatch or impossible calendar date)
turned into the single ValueError message of the source. -/
def birthdayInit (value : List Char) : Except String PyDate :=
  match splitOnDot value with
  | [dTok, mTok, yTok] =>
    if dayTokOk dTok && monthTokOk mTok && yearTokOk yTok then
      if 1 ≤ tokVal yTok ∧ tokVal yTok ≤ 9999 ∧ 1 ≤ tokVal mTok ∧
          tokVal mTok ≤ 12 ∧ 1 ≤ tokVal dTok ∧
          tokVal dTok ≤ daysInMonth (tokVal yTok) (tokVal mTok) then
        .ok { year := tokVal yTok, month := tokVal mTok, day := tokVal dTok }
      else .error "Birthday must be in the format DD.MM.YYYY."
    else .error "Birthday must be in the format DD.MM.YYYY."
  | _ => .error "Birthday must be in the format DD.MM.YYYY."

/-- A single decimal digit character, from its value. -/
def digitChar : Nat → Char
  | 0 => '0' | 1 => '1' | 2 => '2' | 3 => '3' | 4 => '4'
  | 5 => '5' | 6 => '6' | 7 => '7' | 8 => '8' | 9 => '9'
  | _ => '0'

/-- Two-digit zero-padded rendering of a number below 100 (strftime
percent-d and percent-m). -/
def pad2 (n : Nat) : List Char :=
  [digitChar (n / 10 % 10), digitChar (n % 10)]

/-- Four-digit zero-padded rendering of a number below 10000 (strftime
percent-Y as documented by Python). -/
def pad4 (n : Nat) : List Char :=
  [digitChar (n / 1000 % 10), digitChar (n / 100 % 10),
   digitChar (n / 10 % 10), digitChar (n % 10)]

/-- Python strftime with the DD.MM.YYYY format used by the source. -/
def strftimeDMY (d : PyDate) : List Char :=
  pad2 d.day ++ '.' :: pad2 d.month ++ '.' :: pad4 d.year

/-- The canonical DD.MM.YYYY rendering of a year/month/day triple. -/
def fmtDMY (y m d : Nat) : List Char :=
  strftimeDMY { year := y, month := m, day := d }

/-- Written after the words of the specification, for comparison with
the source validator: exactly ten ASCII digit characters, the regex
anchored-[0-9]-times-10 of the specification text. -/
def matchesTenAsciiDigits (s : List Char) : Bool :=
  decide (s.length = 10) && s.all (fun c => decide ('0' ≤ c ∧ c ≤ '9'))

/-!
The Record class: one contact with a name, a list of phone values and
an optional birthday.  Phone objects only carry their string value, so
the phone list is modelled as the list of those values; editing a phone
in place is replacing the value at its position.
-/

/-- One contact record. -/
structure Record where
  name : List Char
  phones : List (List Char)
  birthday : Option PyDate
  deriving DecidableEq

/-- Record constructor: validates the name, starts with no phones and
no birthday. -/
def mkRecord (name : List Char) : Except String Record :=
  match nameInit name with
  | .error e => .error e
  | .ok n => .ok { name := n, phones := [], birthday := none }

/-- Record.add_phone: if the value is already present the call is a
silent no-op; otherwise the value is validated and appended. -/
def addPhone (r : Record) (phone : List Char) : Except String Record :=
  if phone ∈ r.phones then .ok r
  else
    match phoneInit phone with
    | .error e => .error e
    | .ok v => .ok { r with phones := r.phones ++ [v] }

/-- Record.find_phone: the first phone object with the given value. -/
def findPhone (r : Record) (phone : List Char) : Option (List Char) :=
  r.phones.find? (fun p => p = phone)

/-- Record.remove_phone: removes the found phone object (the first
occurrence of the value) or raises. -/
def removePhone (r : Record) (phone : List Char) : Except String Record :=
  if phone ∈ r.phones then .ok { r with phones := r.phones.erase phone }
  else .error "Phone not found"

/-- Replacing the first occurrence of a value in a list, which is what
assigning to the found phone object does to the list of values. -/
def replaceFirst : List (List Char) → List Char → List Char → List (List Char)
  | [], _, _ => []
  | x :: xs, old, new =>
    if x = old then new :: xs else x :: replaceFirst xs old new

/-- Record.edit_phone: finds the old value first, then validates the
new value, then assigns it to the found object, so a validation failure
happens before any change to the list. -/
def editPhone (r : Record) (oldPhone newPhone : List Char) : Except String Record :=
  if oldPhone ∈ r.phones then
    match phoneInit newPhone with
    | .error e => .error e
    | .ok v => .ok { r with phones := replaceFirst r.phones oldPhone v }
  else .error "Old phone not found"

/-- Record.add_birthday: validates and unconditionally overwrites. -/
def addBirthday (r : Record) (raw : List Char) : Except String Record :=
  match birthdayInit raw with
  | .error e => .error e
  | .ok b => .ok { r with birthday := some b }

/-!
The AddressBook class: an insertion-ordered dictionary from name
strings to records, modelled as an association list with unique keys.
-/

/-- The address book dictionary, in insertion order. -/
abbrev AddressBook : Type := List (List Char × Record)

/-- Dictionary lookup (dict.get, used by AddressBook.find). -/
def dictGet : AddressBook → List Char → Option Record
  | [], _ => none
  | e :: rest, k => if e.1 = k then some e.2 else dictGet rest k

/-- Dictionary assignment: an existing key keeps its position and gets
the new value, a new key is appended (Python dict semantics, used by
AddressBook.add_record). -/
def dictSet : AddressBook → List Char → Record → AddressBook
  | [], k, v => [(k, v)]
  | e :: rest, k, v =>
    if e.1 = k then (k, v) :: rest else e :: dictSet rest k v

/-- Deleting the entry of a key (the del statement): removes the first
entry with that key. -/
def eraseKey : AddressBook → List Char → AddressBook
  | [], _ => []
  | e :: rest, k => if e.1 = k then rest else e :: eraseKey rest k

/-- AddressBook.add_record: inserts or silently overwrites under the
record name. -/
def addRecord (book : AddressBook) (r : Record) : AddressBook :=
  dictSet book r.name r

/-- AddressBook.find: lookup that never raises. -/
def bookFind (book : AddressBook) (name : List Char) : Option Record :=
  dictGet book name

/-- AddressBook.delete: raises on an absent key, otherwise removes the
entry. -/
def bookDelete (book : AddressBook) (name : List Char) : Except String AddressBook :=
  if (dictGet book name).isSome then .ok (eraseKey book name)
  else .error "Contact not found"

/-- Unique-keys invariant of a dictionary. -/
def nodupKeys (book : AddressBook) : Prop :=
  (book.map (fun e => e.1)).Nodup

instance (book : AddressBook) : Decidable (nodupKeys book) := by
  unfold nodupKeys; infer_instance

/-!
The upcoming-birthday query.
-/

/-- The projected occurrence of a stored birthday: substitute the
current year, and when the result is strictly before today substitute
next year instead.  Each substitution can raise (Feb 29 in a year
without it, or a year out of the supported range). -/
def projectedOccurrence (b today : PyDate) : Except String PyDate :=
  match pyReplaceYear b today.year with
  | .error e => .error e
  | .ok b1 =>
    if toOrdinal b1 < toOrdinal today then pyReplaceYear b1 (today.year + 1)
    else .ok b1

/-- The weekend shift applied before reporting: a Saturday (weekday 5)
or Sunday (weekday 6) occurrence moves forward by 7 minus the weekday
days; other occurrences are unchanged. -/
def weekendShift (d : PyDate) : PyDate :=
  if 5 ≤ pyWeekday d then addDays d (7 - pyWeekday d) else d

/-- The line emitted for a qualifying record. -/
def formatBirthdayLine (name : List Char) (d : PyDate) : List Char :=
  ("Name: ").data ++ name ++ (", birthday: ").data ++ strftimeDMY d

/-- The body of the get_upcoming_birthdays loop for one record: no line
for a record without a birthday; otherwise project the occurrence,
keep the record when the day distance lies in the inclusive window
from 0 to days, and report the weekend-shifted occurrence. -/
def birthdayLine (r : Record) (today : PyDate) (days : Int) :
    Except String (Option (List Char)) :=
  match r.birthday with
  | none => .ok none
  | some b =>
    match projectedOccurrence b today with
    | .error e => .error e
    | .ok occ =>
      if 0 ≤ daysUntil occ today ∧ daysUntil occ today ≤ days then
        .ok (some (formatBirthdayLine r.name (weekendShift occ)))
      else .ok none

/-- The loop of get_upcoming_birthdays over the record values, keeping
iteration order; the first raised error aborts the whole call. -/
def collectLines (rs : List Record) (today : PyDate) (days : Int) :
    Except String (List (List Char)) :=
  match rs with
  | [] => .ok []
  | r :: rest =>
    match birthdayLine r today days with
    | .error e => .error e
    | .ok l? =>
      match collectLines rest today days with
      | .error e => .error e
      | .ok ls =>
        .ok (match l? with | some l => l :: ls | none => ls)

/-- AddressBook.get_upcoming_birthdays, with today passed explicitly
(the source reads the clock; everything after that read is a pure
function of the book, today and the window). -/
def getUpcomingBirthdays (book : AddressBook) (today : PyDate) (days : Int) :
    Except String (List (List Char)) :=
  collectLines (book.map (fun e => e.2)) today days

/-!
The durable-store boundary: load_data and its interaction with the
file system and the pickle module.  The state of the storage location
is one of: no file, an existing but empty file, a file holding a
pickled book, or a file whose bytes the unpickler rejects.
-/

/-- The exceptions the file and pickle layer can raise. -/
inductive PyExc where
  | fileNotFound
  | eofError
  | unpicklingError
  deriving DecidableEq

/-- The observable state of the storage location. -/
inductive StoreState where
  | missing
  | empty
  | pickled (book : AddressBook)
  | corrupt
  deriving DecidableEq

/-- Modelled from the Python file and pickle libraries: opening a
missing file raises FileNotFoundError; pickle.load on an empty file
raises EOFError; on structurally corrupt bytes it raises an
UnpicklingError; otherwise it returns the stored book. -/
def readAndUnpickle : StoreState → Except PyExc AddressBook
  | .missing => .error .fileNotFound
  | .empty => .error .eofError
  | .corrupt => .error .unpicklingError
  | .pickled book => .ok book

/-- load_data: mirrors the try block of the source, which catches
FileNotFoundError and EOFError and returns a fresh empty AddressBook;
any other exception propagates. -/
def loadData (s : StoreState) : Except PyExc AddressBook :=
  match readAndUnpickle s with
  | .ok book => .ok book
  | .error .fileNotFound => .ok []
  | .error .eofError => .ok []
  | .error e => .error e

/-- Value of an ASCII digit character. -/
def asciiVal (c : Char) : Nat :=
  c.toNat - 48

/-- Written after the words of the specification: a canonical
DD.MM.YYYY string, with a two-digit day, a two-digit month and a
four-digit year, all ASCII digits, naming a real calendar date. -/
def canonicalDMY (s : List Char) : Bool :=
  match s with
  | [d1, d2, c1, m1, m2, c2, y1, y2, y3, y4] =>
    decide (c1 = '.') && decide (c2 = '.') &&
    ([d1, d2, m1, m2, y1, y2, y3, y4].all (fun c => decide ('0' ≤ c ∧ c ≤ '9'))) &&
    (decide (1 ≤ asciiVal y1 * 1000 + asciiVal y2 * 100 + asciiVal y3 * 10 + asciiVal y4) &&
     decide (1 ≤ asciiVal m1 * 10 + asciiVal m2) &&
     decide (asciiVal m1 * 10 + asciiVal m2 ≤ 12) &&
     decide (1 ≤ asciiVal d1 * 10 + asciiVal d2) &&
     decide (asciiVal d1 * 10 + asciiVal d2 ≤
       daysInMonth (asciiVal y1 * 1000 + asciiVal y2 * 100 + asciiVal y3 * 10 + asciiVal y4)
         (asciiVal m1 * 10 + asciiVal m2)))
  | _ => false

/-!
Helper lemmas about the string and digit model.
-/

theorem splitOnDot_no_dot : ∀ l : List Char, '.' ∉ l → splitOnDot l = [l] := by
  intro l
  induction l with
  | nil => intro _; rfl
  | cons c cs ih =>
    intro h
    have hc : ¬ c = '.' := by
      intro hc
      exact h (by rw [hc]; exact List.mem_cons_self _ _)
    have hcs : '.' ∉ cs := fun hm => h (List.mem_cons_of_mem c hm)
    simp [splitOnDot, hc, ih hcs]

theorem splitOnDot_append : ∀ l r : List Char, '.' ∉ l →
    splitOnDot (l ++ '.' :: r) = l :: splitOnDot r := by
  intro l
  induction l with
  | nil =>
    intro r _
    simp [splitOnDot]
  | cons c cs ih =>
    intro r h
    have hc : ¬ c = '.' := by
      intro hc
      exact h (by rw [hc]; exact List.mem_cons_self _ _)
    have hcs : '.' ∉ cs := fun hm => h (List.mem_cons_of_mem c hm)
    simp [splitOnDot, hc, ih r hcs]

theorem pyIsDecimalChar_digitChar : ∀ k : Nat, pyIsDecimalChar (digitChar k) = true
  | 0 => by decide
  | 1 => by decide
  | 2 => by decide
  | 3 => by decide
  | 4 => by decide
  | 5 => by decide
  | 6 => by decide
  | 7 => by decide
  | 8 => by decide
  | 9 => by decide
  | n + 10 => by
    have h : digitChar (n + 10) = '0' := rfl
    rw [h]; decide

theorem digitChar_ne_dot : ∀ k : Nat, digitChar k ≠ '.'
  | 0 => by decide
  | 1 => by decide
  | 2 => by decide
  | 3 => by decide
  | 4 => by decide
  | 5 => by decide
  | 6 => by decide
  | 7 => by decide
  | 8 => by decide
  | 9 => by decide
  | n + 10 => by
    have h : digitChar (n + 10) = '0' := rfl
    rw [h]; decide

theorem decDigitVal_digitChar (k : Nat) (h : k < 10) :
    decDigitVal (digitChar k) = k := by
  interval_cases k <;> decide

theorem digitChar_toNat (k : Nat) (h : k < 10) :
    (digitChar k).toNat = 48 + k := by
  interval_cases k <;> decide

theorem dot_not_mem_pad2 (n : Nat) : '.' ∉ pad2 n := by
  intro h
  simp [pad2] at h
  rcases h with h | h <;> exact digitChar_ne_dot _ h.symm

theorem dot_not_mem_pad4 (n : Nat) : '.' ∉ pad4 n := by
  intro h
  simp [pad4] at h
  rcases h with h | h | h | h <;> exact digitChar_ne_dot _ h.symm

theorem splitOnDot_fmtDMY (y m d : Nat) :
    splitOnDot (fmtDMY y m d) = [pad2 d, pad2 m, pad4 y] := by
  show splitOnDot (pad2 d ++ '.' :: (pad2 m ++ '.' :: pad4 y)) = _
  rw [splitOnDot_append _ _ (dot_not_mem_pad2 d),
      splitOnDot_append _ _ (dot_not_mem_pad2 m),
      splitOnDot_no_dot _ (dot_not_mem_pad4 y)]

theorem tokVal_pad2 (n : Nat) (h : n ≤ 99) : tokVal (pad2 n) = n := by
  unfold tokVal pad2
  simp only [List.foldl]
  rw [decDigitVal_digitChar _ (by omega), decDigitVal_digitChar _ (by omega)]
  omega

theorem tokVal_pad4 (n : Nat) (h : n ≤ 9999) : tokVal (pad4 n) = n := by
  unfold tokVal pad4
  simp only [List.foldl]
  rw [decDigitVal_digitChar _ (by omega), decDigitVal_digitChar _ (by omega),
      decDigitVal_digitChar _ (by omega), decDigitVal_digitChar _ (by omega)]
  omega

theorem dayTokOk_pad2 (d : Nat) (h1 : 1 ≤ d) (h2 : d ≤ 31) :
    dayTokOk (pad2 d) = true := by
  interval_cases d <;> decide

theorem monthTokOk_pad2 (m : Nat) (h1 : 1 ≤ m) (h2 : m ≤ 12) :
    monthTokOk (pad2 m) = true := by
  interval_cases m <;> decide

theorem yearTokOk_pad4 (y : Nat) : yearTokOk (pad4 y) = true := by
  simp [yearTokOk, pad4, pyIsDecimalChar_digitChar]

theorem char_eq_of_toNat_eq (a b : Char) (h : a.toNat = b.toNat) : a = b := by
  have hv : a.val = b.val := UInt32.ext h
  cases a; cases b; cases hv; rfl

theorem pyIsDigitNat_ascii (n : Nat) (h : n < 128) :
    pyIsDigitNat n = (decide (48 ≤ n) && decide (n ≤ 57)) := by
  interval_cases n <;> decide

theorem pyIsDigitChar_ascii (c : Char) (h : c.toNat < 128) :
    pyIsDigitChar c = decide ('0' ≤ c ∧ c ≤ '9') := by
  have hn := pyIsDigitNat_ascii c.toNat h
  have e1 : ('0' ≤ c) ↔ (48 ≤ c.toNat) := Iff.rfl
  have e2 : (c ≤ '9') ↔ (c.toNat ≤ 57) := Iff.rfl
  unfold pyIsDigitChar
  rw [hn]
  by_cases h1 : 48 ≤ c.toNat <;> by_cases h2 : c.toNat ≤ 57 <;>
    simp [h1, h2, e1, e2]

theorem all_digit_ascii_bridge (s : List Char) (h : ∀ c ∈ s, c.toNat < 128) :
    s.all pyIsDigitChar = s.all (fun c => decide ('0' ≤ c ∧ c ≤ '9')) := by
  induction s with
  | nil => rfl
  | cons c cs ih =>
    simp only [List.all_cons]
    rw [pyIsDigitChar_ascii c (h c (List.mem_cons_self _ _)),
        ih (fun x hx => h x (List.mem_cons_of_mem _ hx))]

theorem phoneInit_ok_iff (s : List Char) :
    (∃ v, phoneInit s = .ok v) ↔ (s.length = 10 ∧ s.all pyIsDigitChar = true) := by
  unfold phoneInit
  constructor
  · rintro ⟨v, hv⟩
    split at hv
    · cases hv
    · next hcond =>
      push_neg at hcond
      obtain ⟨hdig, hlen⟩ := hcond
      have hd : pyStrIsDigit s = true := by
        cases hts : pyStrIsDigit s
        · exact absurd hts hdig
        · rfl
      unfold pyStrIsDigit at hd
      simp only [Bool.and_eq_true] at hd
      exact ⟨hlen, hd.2⟩
  · rintro ⟨hlen, hall⟩
    have hne : ¬ s.isEmpty = true := by
      intro hemp
      rw [List.isEmpty_iff] at hemp
      rw [hemp] at hlen
      cases hlen
    have hsd : pyStrIsDigit s = true := by
      unfold pyStrIsDigit
      simp only [Bool.and_eq_true, Bool.not_eq_true']
      exact ⟨by cases hie : s.isEmpty; rfl; exact absurd hie hne, hall⟩
    rw [if_neg]
    · exact ⟨s, rfl⟩
    · rintro (h | h)
      · rw [hsd] at h; cases h
      · exact h hlen

theorem ascii_digit_reconstruct (c : Char) (h1 : '0' ≤ c) (h2 : c ≤ '9') :
    digitChar (asciiVal c) = c := by
  have hlo : 48 ≤ c.toNat := h1
  have hhi : c.toNat ≤ 57 := h2
  have hval : asciiVal c < 10 := by unfold asciiVal; omega
  apply char_eq_of_toNat_eq
  rw [digitChar_toNat _ hval]
  unfold asciiVal
  omega

theorem canonicalDMY_decompose (s : List Char) (h : canonicalDMY s = true) :
    ∃ y m d : Nat, 1 ≤ y ∧ y ≤ 9999 ∧ 1 ≤ m ∧ m ≤ 12 ∧ 1 ≤ d ∧
      d ≤ daysInMonth y m ∧ s = fmtDMY y m d := by
  unfold canonicalDMY at h
  split at h
  case h_2 => cases h
  case h_1 d1 d2 c1 m1 m2 c2 y1 y2 y3 y4 =>
    simp only [Bool.and_eq_true, decide_eq_true_eq, List.all_cons, List.all_nil,
      Bool.and_true] at h
    obtain ⟨⟨⟨hc1, hc2⟩, hdig⟩, hbounds⟩ := h
    obtain ⟨hd1, hd2, hm1, hm2, hy1, hy2, hy3, hy4⟩ := hdig
    obtain ⟨⟨⟨⟨hy0, hm0⟩, hm12⟩, hd0⟩, hdim⟩ := hbounds
    have bd1 : 48 ≤ d1.toNat ∧ d1.toNat ≤ 57 := ⟨hd1.1, hd1.2⟩
    have bd2 : 48 ≤ d2.toNat ∧ d2.toNat ≤ 57 := ⟨hd2.1, hd2.2⟩
    have bm1 : 48 ≤ m1.toNat ∧ m1.toNat ≤ 57 := ⟨hm1.1, hm1.2⟩
    have bm2 : 48 ≤ m2.toNat ∧ m2.toNat ≤ 57 := ⟨hm2.1, hm2.2⟩
    have by1 : 48 ≤ y1.toNat ∧ y1.toNat ≤ 57 := ⟨hy1.1, hy1.2⟩
    have by2 : 48 ≤ y2.toNat ∧ y2.toNat ≤ 57 := ⟨hy2.1, hy2.2⟩
    have by3 : 48 ≤ y3.toNat ∧ y3.toNat ≤ 57 := ⟨hy3.1, hy3.2⟩
    have by4 : 48 ≤ y4.toNat ∧ y4.toNat ≤ 57 := ⟨hy4.1, hy4.2⟩
    refine ⟨asciiVal y1 * 1000 + asciiVal y2 * 100 + asciiVal y3 * 10 + asciiVal y4,
      asciiVal m1 * 10 + asciiVal m2, asciiVal d1 * 10 + asciiVal d2,
      hy0, ?_, hm0, hm12, hd0, hdim, ?_⟩
    · unfold asciiVal; omega
    · have a1 : (asciiVal d1 * 10 + asciiVal d2) / 10 % 10 = asciiVal d1 := by
        unfold asciiVal; omega
      have a2 : (asciiVal d1 * 10 + asciiVal d2) % 10 = asciiVal d2 := by
        unfold asciiVal; omega
      have a3 : (asciiVal m1 * 10 + asciiVal m2) / 10 % 10 = asciiVal m1 := by
        unfold asciiVal; omega
      have a4 : (asciiVal m1 * 10 + asciiVal m2) % 10 = asciiVal m2 := by
        unfold asciiVal; omega
      have a5 : (asciiVal y1 * 1000 + asciiVal y2 * 100 + asciiVal y3 * 10 + asciiVal y4)
          / 1000 % 10 = asciiVal y1 := by
        unfold asciiVal; omega
      have a6 : (asciiVal y1 * 1000 + asciiVal y2 * 100 + asciiVal y3 * 10 + asciiVal y4)
          / 100 % 10 = asciiVal y2 := by
        unfold asciiVal; omega
      have a7 : (asciiVal y1 * 1000 + asciiVal y2 * 100 + asciiVal y3 * 10 + asciiVal y4)
          / 10 % 10 = asciiVal y3 := by
        unfold asciiVal; omega
      have a8 : (asciiVal y1 * 1000 + asciiVal y2 * 100 + asciiVal y3 * 10 + asciiVal y4)
          % 10 = asciiVal y4 := by
        unfold asciiVal; omega
      simp only [fmtDMY, strftimeDMY, pad2, pad4, a1, a2, a3, a4, a5, a6, a7, a8,
        ascii_digit_reconstruct d1 hd1.1 hd1.2, ascii_digit_reconstruct d2 hd2.1 hd2.2,
        ascii_digit_reconstruct m1 hm1.1 hm1.2, ascii_digit_reconstruct m2 hm2.1 hm2.2,
        ascii_digit_reconstruct y1 hy1.1 hy1.2, ascii_digit_reconstruct y2 hy2.1 hy2.2,
        ascii_digit_reconstruct y3 hy3.1 hy3.2, ascii_digit_reconstruct y4 hy4.1 hy4.2]
      rw [hc1, hc2]
      rfl

theorem birthdayInit_fmt (y m d : Nat) (hy1 : 1 ≤ y) (hy2 : y ≤ 9999)
    (hm1 : 1 ≤ m) (hm2 : m ≤ 12) (hd1 : 1 ≤ d) (hd2 : d ≤ daysInMonth y m) :
    birthdayInit (fmtDMY y m d) = .ok { year := y, month := m, day := d } := by
  have hd31 : d ≤ 31 := by
    have : daysInMonth y m ≤ 31 := by
      unfold daysInMonth
      split
      · split <;> omega
      · split <;> omega
    omega
  simp only [birthdayInit, splitOnDot_fmtDMY, dayTokOk_pad2 d hd1 hd31,
    monthTokOk_pad2 m hm1 hm2, yearTokOk_pad4 y, Bool.and_self, Bool.true_and,
    Bool.and_true, tokVal_pad2 d (by omega), tokVal_pad2 m (by omega),
    tokVal_pad4 y hy2, if_true]
  rw [if_pos ⟨hy1, hy2, hm1, hm2, hd1, hd2⟩]

/-- Joining token lists back with dots, the inverse of splitOnDot. -/
def joinDots : List (List Char) → List Char
  | [] => []
  | [t] => t
  | t :: ts => t ++ '.' :: joinDots ts

theorem splitOnDot_ne_nil : ∀ s : List Char, splitOnDot s ≠ [] := by
  intro s
  cases s with
  | nil => intro h; cases h
  | cons c cs =>
    unfold splitOnDot
    by_cases hc : c = '.'
    · rw [if_pos hc]
      intro h
      cases h
    · rw [if_neg hc]
      rcases hcs : splitOnDot cs with _ | ⟨t, ts⟩ <;> intro h <;> cases h

theorem joinDots_splitOnDot : ∀ s : List Char, joinDots (splitOnDot s) = s := by
  intro s
  induction s with
  | nil => rfl
  | cons c cs ih =>
    unfold splitOnDot
    by_cases hc : c = '.'
    · rw [if_pos hc]
      rcases hcs : splitOnDot cs with _ | ⟨t, ts⟩
      · exact absurd hcs (splitOnDot_ne_nil cs)
      · rw [hcs] at ih
        show [] ++ '.' :: joinDots (t :: ts) = c :: cs
        rw [List.nil_append, ih, hc]
    · rw [if_neg hc]
      rcases hcs : splitOnDot cs with _ | ⟨t, ts⟩
      · exact absurd hcs (splitOnDot_ne_nil cs)
      · rw [hcs] at ih
        rcases ts with _ | ⟨u, us⟩
        · show c :: t = c :: cs
          rw [show t = cs from ih]
        · show (c :: t) ++ '.' :: joinDots (u :: us) = c :: cs
          rw [List.cons_append]
          rw [show t ++ '.' :: joinDots (u :: us) = cs from ih]

theorem splitOnDot_mem_no_dot : ∀ s t : List Char, t ∈ splitOnDot s → '.' ∉ t := by
  intro s
  induction s with
  | nil =>
    intro t ht
    have ht' : t ∈ [([] : List Char)] := ht
    rw [List.mem_singleton] at ht'
    subst ht'
    simp
  | cons c cs ih =>
    intro t ht
    unfold splitOnDot at ht
    by_cases hc : c = '.'
    · rw [if_pos hc] at ht
      rcases List.mem_cons.mp ht with h | h
      · subst h; simp
      · exact ih t h
    · rw [if_neg hc] at ht
      rcases hcs : splitOnDot cs with _ | ⟨t0, ts⟩
      · exact absurd hcs (splitOnDot_ne_nil cs)
      · rw [hcs] at ht
        rcases List.mem_cons.mp ht with h | h
        · subst h
          intro hdot
          rcases List.mem_cons.mp hdot with h' | h'
          · exact hc h'.symm
          · exact ih t0 (by rw [hcs]; exact List.mem_cons_self _ _) h'
        · exact ih t (by rw [hcs]; exact List.mem_cons_of_mem _ h)

theorem birthdayInit_three (s t1 t2 t3 : List Char)
    (hsp : splitOnDot s = [t1, t2, t3]) :
    birthdayInit s =
      (if (dayTokOk t1 && monthTokOk t2 && yearTokOk t3) = true then
        if 1 ≤ tokVal t3 ∧ tokVal t3 ≤ 9999 ∧ 1 ≤ tokVal t2 ∧ tokVal t2 ≤ 12 ∧
            1 ≤ tokVal t1 ∧ tokVal t1 ≤ daysInMonth (tokVal t3) (tokVal t2) then
          .ok { year := tokVal t3, month := tokVal t2, day := tokVal t1 }
        else .error "Birthday must be in the format DD.MM.YYYY."
      else .error "Birthday must be in the format DD.MM.YYYY.") := by
  unfold birthdayInit
  rw [hsp]

theorem birthdayInit_ok_iff_loose (s : List Char) :
    (∃ d, birthdayInit s = .ok d) ↔
    ∃ t1 t2 t3 : List Char,
      s = t1 ++ '.' :: (t2 ++ '.' :: t3) ∧ '.' ∉ t1 ∧ '.' ∉ t2 ∧ '.' ∉ t3 ∧
      dayTokOk t1 = true ∧ monthTokOk t2 = true ∧ yearTokOk t3 = true ∧
      1 ≤ tokVal t3 ∧ tokVal t3 ≤ 9999 ∧ 1 ≤ tokVal t2 ∧ tokVal t2 ≤ 12 ∧
      1 ≤ tokVal t1 ∧ tokVal t1 ≤ daysInMonth (tokVal t3) (tokVal t2) := by
  constructor
  · rintro ⟨d0, hok⟩
    rcases hsp : splitOnDot s with _ | ⟨t1, _ | ⟨t2, _ | ⟨t3, _ | ⟨t4, ts⟩⟩⟩⟩
    · exact absurd hsp (splitOnDot_ne_nil s)
    · unfold birthdayInit at hok
      rw [hsp] at hok
      exact absurd (show (Except.error "Birthday must be in the format DD.MM.YYYY." :
        Except String PyDate) = .ok d0 from hok) (by simp)
    · unfold birthdayInit at hok
      rw [hsp] at hok
      exact absurd (show (Except.error "Birthday must be in the format DD.MM.YYYY." :
        Except String PyDate) = .ok d0 from hok) (by simp)
    · rw [birthdayInit_three s t1 t2 t3 hsp] at hok
      split at hok
      · next hcond =>
        split at hok
        · next hguard =>
          rw [Bool.and_eq_true, Bool.and_eq_true] at hcond
          obtain ⟨⟨hd, hm⟩, hy⟩ := hcond
          have hj := joinDots_splitOnDot s
          rw [hsp] at hj
          refine ⟨t1, t2, t3, hj.symm, ?_, ?_, ?_, hd, hm, hy,
            hguard.1, hguard.2.1, hguard.2.2.1, hguard.2.2.2.1,
            hguard.2.2.2.2.1, hguard.2.2.2.2.2⟩
          · exact splitOnDot_mem_no_dot s t1 (by rw [hsp]; exact List.mem_cons_self _ _)
          · exact splitOnDot_mem_no_dot s t2 (by rw [hsp]; simp)
          · exact splitOnDot_mem_no_dot s t3 (by rw [hsp]; simp)
        · cases hok
      · cases hok
    · unfold birthdayInit at hok
      rw [hsp] at hok
      exact absurd (show (Except.error "Birthday must be in the format DD.MM.YYYY." :
        Except String PyDate) = .ok d0 from hok) (by simp)
  · rintro ⟨t1, t2, t3, hs, hn1, hn2, hn3, hd, hm, hy, g1, g2, g3, g4, g5, g6⟩
    subst hs
    have hsp : splitOnDot (t1 ++ '.' :: (t2 ++ '.' :: t3)) = [t1, t2, t3] := by
      rw [splitOnDot_append _ _ hn1, splitOnDot_append _ _ hn2,
          splitOnDot_no_dot _ hn3]
    rw [birthdayInit_three _ t1 t2 t3 hsp]
    rw [if_pos (by rw [hd, hm, hy]; rfl)]
    rw [if_pos ⟨g1, g2, g3, g4, g5, g6⟩]
    exact ⟨_, rfl⟩

theorem birthdayInit_ok_shape (s : List Char) :
    birthdayInit s = .error "Birthday must be in the format DD.MM.YYYY." ∨
    ∃ y m d : Nat, birthdayInit s = .ok { year := y, month := m, day := d } ∧
      1 ≤ y ∧ y ≤ 9999 ∧ 1 ≤ m ∧ m ≤ 12 ∧ 1 ≤ d ∧ d ≤ daysInMonth y m := by
  unfold birthdayInit
  split
  · split
    · split
      · next hg =>
        right
        exact ⟨_, _, _, rfl, hg.1, hg.2.1, hg.2.2.1, hg.2.2.2.1,
          hg.2.2.2.2.1, hg.2.2.2.2.2⟩
      · left; rfl
    · left; rfl
  · left; rfl

/-!
Claims C3 and C8, about the Phone and Birthday validators.
-/

/-- Claim C3, counterexample: the Phone validator accepts a string of
ten Arabic-Indic digits, although it does not match the
ten-ASCII-digit regex of the claim, because str.isdigit accepts every
Unicode digit character. -/
theorem phone_accepts_nonascii_digits :
    phoneInit (("٠١٢٣٤٥٦٧٨٩").data) = .ok (("٠١٢٣٤٥٦٧٨٩").data) ∧
    matchesTenAsciiDigits (("٠١٢٣٤٥٦٧٨٩").data) = false :=
  ⟨by decide, by decide⟩

/-- Claim C3 (amended): Phone construction succeeds if and only if the
input has exactly ten characters all passing the Python str.isdigit
test (which accepts ASCII digits and also non-ASCII Unicode digit
characters); on success the stored value is the raw string unchanged,
and on any other input it fails with the ValidationError message.  For
inputs made of ASCII characters only, acceptance coincides with the
ten-ASCII-digit regex of the specification. -/
theorem phone_validation_amended :
    (∀ s : List Char,
      ((∃ v, phoneInit s = .ok v) ↔ (s.length = 10 ∧ s.all pyIsDigitChar = true)) ∧
      (∀ v, phoneInit s = .ok v → v = s) ∧
      ((∃ v, phoneInit s = .ok v) ∨
        phoneInit s = .error "Phone must contain exactly 10 digits")) ∧
    (∀ s : List Char, (∀ c ∈ s, c.toNat < 128) →
      ((∃ v, phoneInit s = .ok v) ↔ matchesTenAsciiDigits s = true)) := by
  constructor
  · intro s
    refine ⟨phoneInit_ok_iff s, ?_, ?_⟩
    · intro v hv
      unfold phoneInit at hv
      split at hv
      · cases hv
      · cases hv; rfl
    · unfold phoneInit
      split
      · right; rfl
      · left; exact ⟨s, rfl⟩
  · intro s hascii
    rw [phoneInit_ok_iff s]
    unfold matchesTenAsciiDigits
    rw [all_digit_ascii_bridge s hascii]
    simp [Bool.and_eq_true, decide_eq_true_eq]

/-- Claim C3, witness: the amended equivalence applied to a concrete
all-ASCII input. -/
theorem phone_validation_amended_witness :
    (∃ v, phoneInit (("0123456789").data) = .ok v) ↔
      matchesTenAsciiDigits (("0123456789").data) = true :=
  phone_validation_amended.2 (("0123456789").data) (by decide)

/-- Claim C8, counterexample: the Birthday validator accepts 9.3.2024,
a string that is not in two-digit-day two-digit-month DD.MM.YYYY form,
and formatting the stored date back yields a different string. -/
theorem birthday_accepts_single_digit_day :
    birthdayInit (("9.3.2024").data) = .ok { year := 2024, month := 3, day := 9 } ∧
    canonicalDMY (("9.3.2024").data) = false ∧
    strftimeDMY { year := 2024, month := 3, day := 9 } ≠ ("9.3.2024").data :=
  ⟨by decide, by decide, by decide⟩

/-- Claim C8 (amended): every canonical DD.MM.YYYY string of a real
calendar date is accepted and the stored date formats back to exactly
the input; every acceptance stores a real calendar date in years 1 to
9999; and construction succeeds exactly on the strings that decompose
as day dot month dot year with the day and month fields matching the
one-or-two-digit strptime alternations, the year field four decimal
digits, and the three values naming a real calendar date — every
string outside that looser pattern fails with the ValidationError
message.  The correction: that pattern also accepts one-digit day and
month forms (see the counterexample), so rejection is guaranteed only
outside the looser pattern, not for every string outside canonical
DD.MM.YYYY form. -/
theorem birthday_roundtrip_amended :
    (∀ s : List Char, canonicalDMY s = true →
      ∃ y m d : Nat, birthdayInit s = .ok { year := y, month := m, day := d } ∧
        strftimeDMY { year := y, month := m, day := d } = s) ∧
    (∀ y m d : Nat, 1 ≤ y → y ≤ 9999 → 1 ≤ m → m ≤ 12 → 1 ≤ d →
      d ≤ daysInMonth y m →
      birthdayInit (fmtDMY y m d) = .ok { year := y, month := m, day := d } ∧
      strftimeDMY { year := y, month := m, day := d } = fmtDMY y m d) ∧
    (∀ s : List Char,
      birthdayInit s = .error "Birthday must be in the format DD.MM.YYYY." ∨
      ∃ y m d : Nat, birthdayInit s = .ok { year := y, month := m, day := d } ∧
        1 ≤ y ∧ y ≤ 9999 ∧ 1 ≤ m ∧ m ≤ 12 ∧ 1 ≤ d ∧ d ≤ daysInMonth y m) ∧
    (∀ s : List Char,
      (∃ d, birthdayInit s = .ok d) ↔
      ∃ t1 t2 t3 : List Char,
        s = t1 ++ '.' :: (t2 ++ '.' :: t3) ∧ '.' ∉ t1 ∧ '.' ∉ t2 ∧ '.' ∉ t3 ∧
        dayTokOk t1 = true ∧ monthTokOk t2 = true ∧ yearTokOk t3 = true ∧
        1 ≤ tokVal t3 ∧ tokVal t3 ≤ 9999 ∧ 1 ≤ tokVal t2 ∧ tokVal t2 ≤ 12 ∧
        1 ≤ tokVal t1 ∧ tokVal t1 ≤ daysInMonth (tokVal t3) (tokVal t2)) ∧
    (∀ s : List Char,
      (¬ ∃ t1 t2 t3 : List Char,
        s = t1 ++ '.' :: (t2 ++ '.' :: t3) ∧ '.' ∉ t1 ∧ '.' ∉ t2 ∧ '.' ∉ t3 ∧
        dayTokOk t1 = true ∧ monthTokOk t2 = true ∧ yearTokOk t3 = true ∧
        1 ≤ tokVal t3 ∧ tokVal t3 ≤ 9999 ∧ 1 ≤ tokVal t2 ∧ tokVal t2 ≤ 12 ∧
        1 ≤ tokVal t1 ∧ tokVal t1 ≤ daysInMonth (tokVal t3) (tokVal t2)) →
      birthdayInit s = .error "Birthday must be in the format DD.MM.YYYY.") := by
  refine ⟨?_, ?_, birthdayInit_ok_shape, birthdayInit_ok_iff_loose, ?_⟩
  · intro s hs
    obtain ⟨y, m, d, h1, h2, h3, h4, h5, h6, hfmt⟩ := canonicalDMY_decompose s hs
    subst hfmt
    exact ⟨y, m, d, birthdayInit_fmt y m d h1 h2 h3 h4 h5 h6, rfl⟩
  · intro y m d h1 h2 h3 h4 h5 h6
    exact ⟨birthdayInit_fmt y m d h1 h2 h3 h4 h5 h6, rfl⟩
  · intro s hno
    rcases birthdayInit_ok_shape s with h | ⟨y, m, d, hok, _⟩
    · exact h
    · exact absurd ((birthdayInit_ok_iff_loose s).mp ⟨_, hok⟩) hno

/-- Claim C8, witness: the amended round trip applied to a concrete
canonical date string. -/
theorem birthday_roundtrip_amended_witness :
    birthdayInit (fmtDMY 2024 3 12) = .ok { year := 2024, month := 3, day := 12 } ∧
    strftimeDMY { year := 2024, month := 3, day := 12 } = fmtDMY 2024 3 12 :=
  birthday_roundtrip_amended.2.1 2024 3 12 (by decide) (by decide) (by decide)
    (by decide) (by decide) (by decide)

/-!
Helper lemmas about Record operations.
-/

theorem phoneInit_ok_val (s v : List Char) (h : phoneInit s = .ok v) : v = s := by
  unfold phoneInit at h
  split at h
  · cases h
  · cases h; rfl

theorem replaceFirst_self (l : List (List Char)) (old : List Char) :
    replaceFirst l old old = l := by
  induction l with
  | nil => rfl
  | cons x xs ih =>
    by_cases hx : x = old
    · simp [replaceFirst, hx]
    · simp [replaceFirst, hx, ih]

theorem mem_replaceFirst (l : List (List Char)) (old new x : List Char)
    (h : x ∈ replaceFirst l old new) : x ∈ l ∨ x = new := by
  induction l with
  | nil => cases h
  | cons a as ih =>
    by_cases ha : a = old
    · rw [replaceFirst, if_pos ha] at h
      rcases List.mem_cons.mp h with h | h
      · exact Or.inr h
      · exact Or.inl (List.mem_cons_of_mem _ h)
    · rw [replaceFirst, if_neg ha] at h
      rcases List.mem_cons.mp h with h | h
      · exact Or.inl (by rw [h]; exact List.mem_cons_self _ _)
      · rcases ih h with h | h
        · exact Or.inl (List.mem_cons_of_mem _ h)
        · exact Or.inr h

theorem nodup_replaceFirst (l : List (List Char)) (old new : List Char)
    (hnd : l.Nodup) (hnew : new ∉ l ∨ new = old) :
    (replaceFirst l old new).Nodup := by
  rcases hnew with hnew | rfl
  · induction l with
    | nil => exact hnd
    | cons x xs ih =>
      obtain ⟨hx, hxs⟩ := List.nodup_cons.mp hnd
      have hnew' : new ∉ xs := fun hm => hnew (List.mem_cons_of_mem _ hm)
      by_cases hxo : x = old
      · rw [replaceFirst, if_pos hxo]
        exact List.nodup_cons.mpr ⟨hnew', hxs⟩
      · rw [replaceFirst, if_neg hxo]
        refine List.nodup_cons.mpr ⟨?_, ih hxs hnew'⟩
        intro hm
        rcases mem_replaceFirst xs old new x hm with h | h
        · exact hx h
        · exact hnew (by rw [← h]; exact List.mem_cons_self _ _)
  · rw [replaceFirst_self]
    exact hnd

theorem replaceFirst_eq_set (l : List (List Char)) (old new : List Char)
    (h : old ∈ l) :
    ∃ i, i < l.length ∧ l.getD i [] = old ∧ (∀ j, j < i → l.getD j [] ≠ old) ∧
      replaceFirst l old new = l.set i new := by
  induction l with
  | nil => cases h
  | cons x xs ih =>
    by_cases hx : x = old
    · refine ⟨0, by simp, by simp [hx], ?_, ?_⟩
      · intro j hj; omega
      · rw [replaceFirst, if_pos hx]; rfl
    · have hmem : old ∈ xs := by
        rcases List.mem_cons.mp h with h | h
        · exact absurd h.symm hx
        · exact h
      obtain ⟨i, hi, hget, hbefore, hrep⟩ := ih hmem
      refine ⟨i + 1, by simp; omega, by simpa using hget, ?_, ?_⟩
      · intro j hj
        match j with
        | 0 => simpa using fun hc => hx hc
        | j + 1 => simpa using hbefore j (by omega)
      · rw [replaceFirst, if_neg hx, hrep]
        rfl

/-!
Claims C4, C5 and C7, about the phone operations of a Record.
-/

/-- Claim C4, counterexample: edit_phone assigns the new value to the
found phone object without checking whether another phone of the same
record already holds it, so editing one phone onto the value of
another produces two equal phone values in one record. -/
theorem edit_phone_creates_duplicate :
    editPhone
      { name := ("A").data,
        phones := [("1111111111").data, ("2222222222").data], birthday := none }
      (("1111111111").data) (("2222222222").data) =
      .ok { name := ("A").data,
            phones := [("2222222222").data, ("2222222222").data],
            birthday := none } ∧
    ¬ ([("2222222222").data, ("2222222222").data] : List (List Char)).Nodup :=
  ⟨by decide, by decide⟩

/-- Claim C4 (amended): the no-duplicate-phone-values invariant is
preserved by add_phone and remove_phone, and by edit_phone whenever
the new value is not already held by another phone of the record (or
equals the old value); edit_phone with a new value equal to another
stored phone value breaks the invariant (see the counterexample). -/
theorem phone_uniqueness_amended :
    (∀ (r : Record) (p : List Char) (r' : Record), r.phones.Nodup →
      addPhone r p = .ok r' → r'.phones.Nodup) ∧
    (∀ (r : Record) (p : List Char) (r' : Record), r.phones.Nodup →
      removePhone r p = .ok r' → r'.phones.Nodup) ∧
    (∀ (r : Record) (oldp newp : List Char) (r' : Record), r.phones.Nodup →
      (newp ∉ r.phones ∨ newp = oldp) →
      editPhone r oldp newp = .ok r' → r'.phones.Nodup) := by
  refine ⟨?_, ?_, ?_⟩
  · intro r p r' hnd h
    unfold addPhone at h
    split at h
    · cases h; exact hnd
    · next hnotin =>
      cases hp : phoneInit p with
      | error e => rw [hp] at h; cases h
      | ok v =>
        rw [hp] at h
        cases h
        have hv : v = p := phoneInit_ok_val p v hp
        subst hv
        refine List.nodup_append.mpr ⟨hnd, List.nodup_singleton v, ?_⟩
        intro x hx hxv
        rw [List.mem_singleton] at hxv
        subst hxv
        exact hnotin hx
  · intro r p r' hnd h
    unfold removePhone at h
    split at h
    · cases h; exact hnd.erase p
    · cases h
  · intro r oldp newp r' hnd hnew h
    unfold editPhone at h
    split at h
    · cases hp : phoneInit newp with
      | error e => rw [hp] at h; cases h
      | ok v =>
        rw [hp] at h
        cases h
        have hv : v = newp := phoneInit_ok_val newp v hp
        subst hv
        exact nodup_replaceFirst r.phones oldp v hnd hnew
    · cases h

/-- Claim C4, witness: the amended preservation applied to a concrete
record and edit. -/
theorem phone_uniqueness_amended_witness :
    editPhone
      { name := ("A").data, phones := [("1111111111").data], birthday := none }
      (("1111111111").data) (("2222222222").data) =
      .ok { name := ("A").data, phones := [("2222222222").data], birthday := none } ∧
    ([("2222222222").data] : List (List Char)).Nodup := by
  refine ⟨by decide, ?_⟩
  exact phone_uniqueness_amended.2.2
    { name := ("A").data, phones := [("1111111111").data], birthday := none }
    (("1111111111").data) (("2222222222").data)
    { name := ("A").data, phones := [("2222222222").data], birthday := none }
    (by decide) (Or.inl (by decide)) (by decide)

/-- Claim C5 (confirmed): edit_phone raises NotFound when the old
value is absent; when the old value is present and the new value fails
Phone validation, the validation error is raised before any change to
the phone list, so the record is left untouched; on success the value
is replaced at the position of the first occurrence of the old value,
with the name, the birthday, every other position and the length of
the phone list unchanged. -/
theorem edit_phone_contract :
    (∀ (r : Record) (oldp newp : List Char), oldp ∉ r.phones →
      editPhone r oldp newp = .error "Old phone not found") ∧
    (∀ (r : Record) (oldp newp : List Char) (e : String), oldp ∈ r.phones →
      phoneInit newp = .error e → editPhone r oldp newp = .error e) ∧
    (∀ (r : Record) (oldp newp v : List Char), oldp ∈ r.phones →
      phoneInit newp = .ok v →
      ∃ i, i < r.phones.length ∧ r.phones.getD i [] = oldp ∧
        (∀ j, j < i → r.phones.getD j [] ≠ oldp) ∧
        editPhone r oldp newp = .ok { r with phones := r.phones.set i v } ∧
        (r.phones.set i v).length = r.phones.length ∧
        (∀ j, j ≠ i → (r.phones.set i v).getD j [] = r.phones.getD j []) ∧ v = newp) := by
  refine ⟨?_, ?_, ?_⟩
  · intro r oldp newp h
    unfold editPhone
    rw [if_neg h]
  · intro r oldp newp e hmem herr
    unfold editPhone
    rw [if_pos hmem, herr]
  · intro r oldp newp v hmem hok
    obtain ⟨i, hi, hget, hbefore, hrep⟩ := replaceFirst_eq_set r.phones oldp v hmem
    refine ⟨i, hi, hget, hbefore, ?_, by simp, ?_, phoneInit_ok_val newp v hok⟩
    · unfold editPhone
      rw [if_pos hmem, hok]
      exact congrArg
        (fun l => (Except.ok { name := r.name, phones := l, birthday := r.birthday } :
          Except String Record)) hrep
    · intro j hj
      rw [List.getD, List.getD, List.get?_set_ne v r.phones (Ne.symm hj)]

/-- Claim C5, witness: the three branches applied to one concrete
record. -/
theorem edit_phone_contract_witness :
    editPhone { name := ("A").data, phones := [("1111111111").data], birthday := none }
      (("3333333333").data) (("2222222222").data) = .error "Old phone not found" ∧
    editPhone { name := ("A").data, phones := [("1111111111").data], birthday := none }
      (("1111111111").data) (("22").data) = .error "Phone must contain exactly 10 digits" ∧
    ∃ i, i < 1 ∧ editPhone
      { name := ("A").data, phones := [("1111111111").data], birthday := none }
      (("1111111111").data) (("2222222222").data) =
      .ok { name := ("A").data,
            phones := [("1111111111").data].set i (("2222222222").data),
            birthday := none } := by
  refine ⟨?_, ?_, ?_⟩
  · exact edit_phone_contract.1
      { name := ("A").data, phones := [("1111111111").data], birthday := none }
      (("3333333333").data) (("2222222222").data) (by decide)
  · exact edit_phone_contract.2.1
      { name := ("A").data, phones := [("1111111111").data], birthday := none }
      (("1111111111").data) (("22").data) ("Phone must contain exactly 10 digits")
      (by decide) (by decide)
  · obtain ⟨i, hi, _, _, hrep, _⟩ := edit_phone_contract.2.2
      { name := ("A").data, phones := [("1111111111").data], birthday := none }
      (("1111111111").data) (("2222222222").data) (("2222222222").data)
      (by decide) (by decide)
    exact ⟨i, hi, hrep⟩

/-- Claim C7 (confirmed): add_phone with a value already present is a
silent no-op, and adding the same value twice leaves the record as the
first addition left it. -/
theorem add_phone_idempotent :
    (∀ (r : Record) (p : List Char), p ∈ r.phones → addPhone r p = .ok r) ∧
    (∀ (r : Record) (p : List Char) (r' : Record),
      addPhone r p = .ok r' → addPhone r' p = .ok r') := by
  constructor
  · intro r p h
    unfold addPhone
    rw [if_pos h]
  · intro r p r' h
    unfold addPhone at h ⊢
    split at h
    · next hmem => cases h; rw [if_pos hmem]
    · next hnotin =>
      cases hp : phoneInit p with
      | error e => rw [hp] at h; cases h
      | ok v =>
        rw [hp] at h
        cases h
        have hv : v = p := phoneInit_ok_val p v hp
        subst hv
        rw [if_pos (by simp)]

/-- Claim C7, witness: adding the same value twice to a concrete
record. -/
theorem add_phone_idempotent_witness :
    addPhone { name := ("A").data, phones := [("1111111111").data], birthday := none }
      (("1111111111").data) =
      .ok { name := ("A").data, phones := [("1111111111").data], birthday := none } :=
  add_phone_idempotent.2
    { name := ("A").data, phones := [], birthday := none }
    (("1111111111").data)
    { name := ("A").data, phones := [("1111111111").data], birthday := none }
    (by decide)

/-!
Helper lemmas about the address-book dictionary, and claims C6 and C9.
-/

theorem dictGet_eq_none_of_not_key (book : AddressBook) (k : List Char)
    (h : k ∉ book.map (fun e => e.1)) : dictGet book k = none := by
  induction book with
  | nil => rfl
  | cons e rest ih =>
    have he : ¬ e.1 = k := by
      intro hc
      exact h (by rw [← hc]; exact List.mem_cons_self _ _)
    rw [dictGet, if_neg he]
    exact ih (fun hm => h (List.mem_cons_of_mem _ hm))

theorem dictGet_eraseKey_self (book : AddressBook) (k : List Char)
    (hnd : nodupKeys book) : dictGet (eraseKey book k) k = none := by
  induction book with
  | nil => rfl
  | cons e rest ih =>
    obtain ⟨hk, hrest⟩ := List.nodup_cons.mp hnd
    by_cases he : e.1 = k
    · rw [eraseKey, if_pos he]
      exact dictGet_eq_none_of_not_key rest k (by rw [← he]; exact hk)
    · rw [eraseKey, if_neg he, dictGet, if_neg he]
      exact ih hrest

theorem dictGet_eraseKey_other (book : AddressBook) (k name : List Char)
    (h : k ≠ name) : dictGet (eraseKey book name) k = dictGet book k := by
  induction book with
  | nil => rfl
  | cons e rest ih =>
    by_cases he : e.1 = name
    · rw [eraseKey, if_pos he, dictGet, if_neg (by rw [he]; exact Ne.symm h)]
    · rw [eraseKey, if_neg he, dictGet, dictGet]
      by_cases hek : e.1 = k
      · rw [if_pos hek, if_pos hek]
      · rw [if_neg hek, if_neg hek]
        exact ih

theorem length_eraseKey (book : AddressBook) (k : List Char)
    (h : (dictGet book k).isSome = true) :
    (eraseKey book k).length + 1 = book.length := by
  induction book with
  | nil => cases h
  | cons e rest ih =>
    by_cases he : e.1 = k
    · rw [eraseKey, if_pos he]
      rfl
    · rw [dictGet, if_neg he] at h
      rw [eraseKey, if_neg he]
      simp only [List.length_cons]
      rw [← ih h]

/-- Claim C6 (confirmed): delete on an absent key raises NotFound (and
being a query followed by a raise, changes nothing); delete on a
present key removes exactly that entry: the deleted key no longer
resolves, every other key resolves to exactly what it did before, and
the book shrinks by exactly one entry. -/
theorem delete_exact_removal :
    (∀ (book : AddressBook) (name : List Char), dictGet book name = none →
      bookDelete book name = .error "Contact not found") ∧
    (∀ (book : AddressBook) (name : List Char) (r : Record),
      dictGet book name = some r → nodupKeys book →
      bookDelete book name = .ok (eraseKey book name) ∧
      dictGet (eraseKey book name) name = none ∧
      (∀ k, k ≠ name → dictGet (eraseKey book name) k = dictGet book k) ∧
      (eraseKey book name).length + 1 = book.length) := by
  constructor
  · intro book name h
    unfold bookDelete
    rw [h]
    rfl
  · intro book name r h hnd
    refine ⟨?_, dictGet_eraseKey_self book name hnd,
      fun k hk => dictGet_eraseKey_other book k name hk, ?_⟩
    · unfold bookDelete
      rw [h]
      rfl
    · exact length_eraseKey book name (by rw [h]; rfl)

/-- Claim C6, witness: both branches applied to a concrete two-entry
book. -/
theorem delete_exact_removal_witness :
    bookDelete [((("A").data), { name := ("A").data, phones := [], birthday := none })]
      (("B").data) = .error "Contact not found" ∧
    bookDelete [((("A").data), { name := ("A").data, phones := [], birthday := none }),
                ((("B").data), { name := ("B").data, phones := [], birthday := none })]
      (("A").data) =
      .ok [((("B").data), { name := ("B").data, phones := [], birthday := none })] := by
  constructor
  · exact delete_exact_removal.1
      [((("A").data), { name := ("A").data, phones := [], birthday := none })]
      (("B").data) (by decide)
  · have h := (delete_exact_removal.2
      [((("A").data), { name := ("A").data, phones := [], birthday := none }),
       ((("B").data), { name := ("B").data, phones := [], birthday := none })]
      (("A").data) { name := ("A").data, phones := [], birthday := none }
      (by decide) (by decide)).1
    rw [h]
    decide

/-!
Helper lemmas about the date model, for the upcoming-birthday claims.
-/

theorem daysInMonth_pos (y m : Nat) : 1 ≤ daysInMonth y m := by
  unfold daysInMonth
  split
  · split <;> omega
  · split <;> omega

theorem daysInMonth_le_31 (y m : Nat) : daysInMonth y m ≤ 31 := by
  unfold daysInMonth
  split
  · split <;> omega
  · split <;> omega

theorem daysBeforeMonth_succ (y m : Nat) (h : 1 ≤ m) :
    daysBeforeMonth y (m + 1) = daysBeforeMonth y m + daysInMonth y m := by
  rw [daysBeforeMonth]
  rw [if_neg (by omega)]

theorem daysInMonth_notFeb (y m : Nat) (h2 : m ≠ 2)
    (h30 : ¬ (m = 4 ∨ m = 6 ∨ m = 9 ∨ m = 11)) : daysInMonth y m = 31 := by
  unfold daysInMonth
  rw [if_neg h2, if_neg h30]

theorem daysInMonth_30 (y m : Nat) (h30 : m = 4 ∨ m = 6 ∨ m = 9 ∨ m = 11) :
    daysInMonth y m = 30 := by
  unfold daysInMonth
  rw [if_neg (by omega), if_pos h30]

theorem daysBeforeMonth_13 (y : Nat) :
    daysBeforeMonth y 13 = 337 + daysInMonth y 2 := by
  have e1 : daysInMonth y 1 = 31 := daysInMonth_notFeb y 1 (by omega) (by omega)
  have e3 : daysInMonth y 3 = 31 := daysInMonth_notFeb y 3 (by omega) (by omega)
  have e4 : daysInMonth y 4 = 30 := daysInMonth_30 y 4 (by omega)
  have e5 : daysInMonth y 5 = 31 := daysInMonth_notFeb y 5 (by omega) (by omega)
  have e6 : daysInMonth y 6 = 30 := daysInMonth_30 y 6 (by omega)
  have e7 : daysInMonth y 7 = 31 := daysInMonth_notFeb y 7 (by omega) (by omega)
  have e8 : daysInMonth y 8 = 31 := daysInMonth_notFeb y 8 (by omega) (by omega)
  have e9 : daysInMonth y 9 = 30 := daysInMonth_30 y 9 (by omega)
  have e10 : daysInMonth y 10 = 31 := daysInMonth_notFeb y 10 (by omega) (by omega)
  have e11 : daysInMonth y 11 = 30 := daysInMonth_30 y 11 (by omega)
  have e12 : daysInMonth y 12 = 31 := daysInMonth_notFeb y 12 (by omega) (by omega)
  rw [daysBeforeMonth_succ y 12 (by omega), daysBeforeMonth_succ y 11 (by omega),
      daysBeforeMonth_succ y 10 (by omega), daysBeforeMonth_succ y 9 (by omega),
      daysBeforeMonth_succ y 8 (by omega), daysBeforeMonth_succ y 7 (by omega),
      daysBeforeMonth_succ y 6 (by omega), daysBeforeMonth_succ y 5 (by omega),
      daysBeforeMonth_succ y 4 (by omega), daysBeforeMonth_succ y 3 (by omega),
      daysBeforeMonth_succ y 2 (by omega), daysBeforeMonth_succ y 1 (by omega),
      e1, e3, e4, e5, e6, e7, e8, e9, e10, e11, e12]
  have e0 : daysBeforeMonth y 1 = 0 := rfl
  omega

theorem isLeap_spec (y : Nat) :
    isLeap y = true ↔ ((y % 4 = 0 ∧ ¬ y % 100 = 0) ∨ y % 400 = 0) := by
  unfold isLeap
  exact decide_eq_true_iff

theorem daysInMonth_feb (y : Nat) :
    daysInMonth y 2 = if isLeap y then 29 else 28 := by
  unfold daysInMonth
  rw [if_pos rfl]

set_option maxHeartbeats 2000000 in
theorem daysBeforeYear_succ (y : Nat) (h : 1 ≤ y) :
    daysBeforeYear (y + 1) = daysBeforeYear y + 337 + daysInMonth y 2 := by
  rw [daysInMonth_feb y]
  by_cases h4 : y % 4 = 0 <;> by_cases h100 : y % 100 = 0 <;>
    by_cases h400 : y % 400 = 0
  all_goals try (exfalso; omega)
  · have hl : isLeap y = true := (isLeap_spec y).mpr (Or.inr h400)
    rw [hl, if_pos rfl]
    unfold daysBeforeYear
    omega
  · have hl : isLeap y = false := by
      cases hb : isLeap y
      · rfl
      · rcases (isLeap_spec y).mp hb with ⟨_, hc⟩ | hc
        · exact absurd h100 hc
        · exact absurd hc h400
    rw [hl, if_neg (by simp)]
    unfold daysBeforeYear
    omega
  · have hl : isLeap y = true := (isLeap_spec y).mpr (Or.inl ⟨h4, h100⟩)
    rw [hl, if_pos rfl]
    unfold daysBeforeYear
    omega
  · have hl : isLeap y = false := by
      cases hb : isLeap y
      · rfl
      · rcases (isLeap_spec y).mp hb with ⟨hc, _⟩ | hc
        · exact absurd hc h4
        · exact absurd (by omega : y % 4 = 0) h4
    rw [hl, if_neg (by simp)]
    unfold daysBeforeYear
    omega

theorem nextDay_ordinal (d : PyDate) (hv : isValidDate d) :
    toOrdinal (nextDay d) = toOrdinal d + 1 ∧ isValidDate (nextDay d) := by
  obtain ⟨hy, hm1, hm2, hd1, hd2⟩ := hv
  unfold nextDay
  by_cases hlt : d.day < daysInMonth d.year d.month
  · rw [if_pos hlt]
    constructor
    · unfold toOrdinal
      dsimp only
      omega
    · unfold isValidDate
      dsimp only
      exact ⟨hy, hm1, hm2, by omega, by omega⟩
  · rw [if_neg hlt]
    have hde : d.day = daysInMonth d.year d.month := by omega
    by_cases hm12 : d.month < 12
    · rw [if_pos hm12]
      constructor
      · unfold toOrdinal
        dsimp only
        rw [daysBeforeMonth_succ d.year d.month hm1]
        omega
      · unfold isValidDate
        dsimp only
        exact ⟨hy, by omega, by omega, by omega, daysInMonth_pos _ _⟩
    · rw [if_neg hm12]
      have hm : d.month = 12 := by omega
      have hdim : daysInMonth d.year 12 = 31 :=
        daysInMonth_notFeb d.year 12 (by omega) (by omega)
      constructor
      · unfold toOrdinal
        dsimp only
        rw [daysBeforeYear_succ d.year hy]
        have h13 := daysBeforeMonth_13 d.year
        have h12 : daysBeforeMonth d.year 13 =
            daysBeforeMonth d.year 12 + daysInMonth d.year 12 :=
          daysBeforeMonth_succ d.year 12 (by omega)
        have hfeb : daysInMonth d.year 2 ≤ 29 ∧ 28 ≤ daysInMonth d.year 2 := by
          rw [daysInMonth_feb d.year]
          cases isLeap d.year <;> simp
        have hb1 : daysBeforeMonth d.year 1 = 0 := rfl
        have hb2 : daysBeforeMonth (d.year + 1) 1 = 0 := rfl
        rw [hm] at hde ⊢
        rw [hdim] at hde
        omega
      · unfold isValidDate
        dsimp only
        have h31 : daysInMonth (d.year + 1) 1 = 31 :=
          daysInMonth_notFeb (d.year + 1) 1 (by omega) (by omega)
        exact ⟨by omega, by omega, by omega, by omega, by omega⟩

theorem addDays_ordinal (n : Nat) :
    ∀ d : PyDate, isValidDate d →
    toOrdinal (addDays d n) = toOrdinal d + n ∧ isValidDate (addDays d n) := by
  induction n with
  | zero => intro d hv; exact ⟨rfl, hv⟩
  | succ k ih =>
    intro d hv
    obtain ⟨ho, hv'⟩ := nextDay_ordinal d hv
    obtain ⟨iho, ihv⟩ := ih (nextDay d) hv'
    rw [show addDays d (k + 1) = addDays (nextDay d) k from rfl]
    exact ⟨by omega, ihv⟩

theorem pyReplaceYear_ok (d : PyDate) (y : Nat) (d' : PyDate)
    (h : pyReplaceYear d y = .ok d') :
    d' = { year := y, month := d.month, day := d.day } ∧ isValidDate d' := by
  unfold pyReplaceYear at h
  split at h
  · cases h
  · next hy =>
    split at h
    · cases h
    · next hm =>
      split at h
      · cases h
      · next hd =>
        cases h
        have hy' := Decidable.not_not.mp hy
        have hm' := Decidable.not_not.mp hm
        have hd' := Decidable.not_not.mp hd
        exact ⟨rfl, hy'.1, hm'.1, hm'.2, hd'.1, hd'.2⟩

theorem projectedOccurrence_reduce (b today : PyDate) (b1 : PyDate)
    (hr : pyReplaceYear b today.year = .ok b1) :
    projectedOccurrence b today =
      (if toOrdinal b1 < toOrdinal today then pyReplaceYear b1 (today.year + 1)
       else .ok b1) := by
  unfold projectedOccurrence
  rw [hr]

theorem projectedOccurrence_error_left (b today : PyDate) (e : String)
    (hr : pyReplaceYear b today.year = .error e) :
    projectedOccurrence b today = .error e := by
  unfold projectedOccurrence
  rw [hr]

theorem projectedOccurrence_valid (b today occ : PyDate)
    (h : projectedOccurrence b today = .ok occ) : isValidDate occ := by
  cases hr : pyReplaceYear b today.year with
  | error e =>
    rw [projectedOccurrence_error_left b today e hr] at h
    cases h
  | ok b1 =>
    rw [projectedOccurrence_reduce b today b1 hr] at h
    split at h
    · exact (pyReplaceYear_ok b1 _ occ h).2
    · cases h
      exact (pyReplaceYear_ok b _ _ hr).2

theorem collectLines_singleton (r : Record) (today : PyDate) (days : Int) :
    collectLines [r] today days =
      match birthdayLine r today days with
      | .error e => .error e
      | .ok (some l) => .ok [l]
      | .ok none => .ok [] := by
  unfold collectLines
  cases hbl : birthdayLine r today days with
  | error e => rfl
  | ok l? => cases l? <;> rfl

theorem collectLines_error_of_mem (rs : List Record) (today : PyDate)
    (days : Int) (r : Record) (hmem : r ∈ rs) (e : String)
    (herr : birthdayLine r today days = .error e) :
    ∃ e', collectLines rs today days = .error e' := by
  induction rs with
  | nil => cases hmem
  | cons a as ih =>
    cases hba : birthdayLine a today days with
    | error e0 =>
      refine ⟨e0, ?_⟩
      unfold collectLines
      rw [hba]
    | ok l? =>
      rcases List.mem_cons.mp hmem with h | h
      · subst h
        rw [hba] at herr
        cases herr
      · obtain ⟨e', he'⟩ := ih h
        refine ⟨e', ?_⟩
        unfold collectLines
        rw [hba, he']

theorem birthdayLine_some (r : Record) (b today : PyDate) (days : Int)
    (hb : r.birthday = some b) :
    birthdayLine r today days =
      (match projectedOccurrence b today with
       | .error e => .error e
       | .ok occ =>
         if 0 ≤ daysUntil occ today ∧ daysUntil occ today ≤ days then
           .ok (some (formatBirthdayLine r.name (weekendShift occ)))
         else .ok none) := by
  unfold birthdayLine
  rw [hb]

theorem birthdayLine_error_of_proj (r : Record) (b today : PyDate) (days : Int)
    (hb : r.birthday = some b) (e : String)
    (hproj : projectedOccurrence b today = .error e) :
    birthdayLine r today days = .error e := by
  rw [birthdayLine_some r b today days hb, hproj]

theorem birthdayLine_feb29_error (r : Record) (today : PyDate) (days : Int)
    (b : PyDate) (hb : r.birthday = some b) (hm : b.month = 2) (hd : b.day = 29)
    (hleap : isLeap today.year = false) :
    ∃ e, birthdayLine r today days = .error e := by
  by_cases hy : 1 ≤ today.year ∧ today.year ≤ 9999
  · have hdim : daysInMonth today.year b.month = 28 := by
      rw [hm]
      unfold daysInMonth
      simp [hleap]
    have hrep : pyReplaceYear b today.year = .error "day is out of range for month" := by
      unfold pyReplaceYear
      rw [if_neg (fun hc => hc hy),
          if_neg (fun hc => hc ⟨by omega, by omega⟩),
          if_pos (fun hc => by rw [hd, hdim] at hc; omega)]
    exact ⟨"day is out of range for month", birthdayLine_error_of_proj r b today days hb _
      (projectedOccurrence_error_left b today _ hrep)⟩
  · have hrep : pyReplaceYear b today.year = .error "year must be in 1..9999" := by
      unfold pyReplaceYear
      rw [if_pos hy]
    exact ⟨"year must be in 1..9999", birthdayLine_error_of_proj r b today days hb _
      (projectedOccurrence_error_left b today _ hrep)⟩

/-!
Claims C1, C2 and C10, about the upcoming-birthday query.
-/

/-- Claim C1 (confirmed): a record with a birthday is selected by
get_upcoming_birthdays exactly when the projected occurrence — the
stored month and day placed in the current year, rolled to next year
when the current-year date is strictly before today — lies at a
whole-day distance between 0 and days, inclusive on both ends, from
today; a selected record contributes its formatted line, an unselected
one contributes nothing, and on a one-record book the query returns
exactly that.  In particular a birthday one day before today rolls to
next year and is excluded for a seven-day window (the witness). -/
theorem upcoming_selection_iff_window :
    ∀ (r : Record) (b today occ : PyDate) (days : Int),
      r.birthday = some b → projectedOccurrence b today = .ok occ →
      ((birthdayLine r today days =
          .ok (some (formatBirthdayLine r.name (weekendShift occ))) ↔
        (0 ≤ daysUntil occ today ∧ daysUntil occ today ≤ days)) ∧
       (birthdayLine r today days = .ok none ↔
        ¬ (0 ≤ daysUntil occ today ∧ daysUntil occ today ≤ days)) ∧
       (∀ k : List Char, getUpcomingBirthdays [(k, r)] today days =
          .ok (if 0 ≤ daysUntil occ today ∧ daysUntil occ today ≤ days then
            [formatBirthdayLine r.name (weekendShift occ)] else []))) := by
  intro r b today occ days hb hocc
  have hline : birthdayLine r today days =
      (if 0 ≤ daysUntil occ today ∧ daysUntil occ today ≤ days then
        .ok (some (formatBirthdayLine r.name (weekendShift occ)))
      else .ok none) := by
    rw [birthdayLine_some r b today days hb, hocc]
  by_cases hsel : 0 ≤ daysUntil occ today ∧ daysUntil occ today ≤ days
  · rw [if_pos hsel] at hline
    refine ⟨⟨fun _ => hsel, fun _ => hline⟩, ⟨?_, fun h => absurd hsel h⟩, fun k => ?_⟩
    · intro h
      rw [hline] at h
      simp at h
    · show collectLines [r] today days = _
      rw [collectLines_singleton, hline, if_pos hsel]
  · rw [if_neg hsel] at hline
    refine ⟨⟨?_, fun h => absurd h hsel⟩, ⟨fun _ => hsel, fun _ => hline⟩, fun k => ?_⟩
    · intro h
      rw [hline] at h
      simp at h
    · show collectLines [r] today days = _
      rw [collectLines_singleton, hline, if_neg hsel]

/-- Claim C1, witness: today is 10.03.2024 and the stored birthday is
09.03 of an earlier year; the occurrence rolls to 09.03.2025, 364 days
away, so the record is excluded for a window of seven days. -/
theorem upcoming_selection_iff_window_witness :
    birthdayLine
      { name := ("Cid").data, phones := [],
        birthday := some { year := 2000, month := 3, day := 9 } }
      { year := 2024, month := 3, day := 10 } 7 = .ok none :=
  ((upcoming_selection_iff_window
    { name := ("Cid").data, phones := [],
      birthday := some { year := 2000, month := 3, day := 9 } }
    { year := 2000, month := 3, day := 9 }
    { year := 2024, month := 3, day := 10 }
    { year := 2025, month := 3, day := 9 } 7 rfl (by decide)).2.1).mpr (by decide)

/-- Claim C2 (confirmed): a selected record is reported with the
weekend-shifted occurrence: a Saturday occurrence (weekday 5) shifts
by two days and a Sunday occurrence (weekday 6) by one day, landing on
a Monday (weekday 0); Monday-through-Friday occurrences are reported
unshifted.  Selection itself uses the unshifted occurrence only, so
the shifted date is never re-checked against the window (the witness
reports a date eight days away under a seven-day window). -/
theorem weekend_shift_reporting :
    ∀ (r : Record) (b today occ : PyDate) (days : Int),
      r.birthday = some b → projectedOccurrence b today = .ok occ →
      0 ≤ daysUntil occ today → daysUntil occ today ≤ days →
      birthdayLine r today days =
        .ok (some (formatBirthdayLine r.name (weekendShift occ))) ∧
      (pyWeekday occ = 5 → weekendShift occ = addDays occ 2) ∧
      (pyWeekday occ = 6 → weekendShift occ = addDays occ 1) ∧
      (pyWeekday occ < 5 → weekendShift occ = occ) ∧
      (5 ≤ pyWeekday occ → pyWeekday (weekendShift occ) = 0) := by
  intro r b today occ days hb hocc h1 h2
  have hline : birthdayLine r today days =
      (if 0 ≤ daysUntil occ today ∧ daysUntil occ today ≤ days then
        .ok (some (formatBirthdayLine r.name (weekendShift occ)))
      else .ok none) := by
    rw [birthdayLine_some r b today days hb, hocc]
  refine ⟨?_, ?_, ?_, ?_, ?_⟩
  · rw [hline, if_pos ⟨h1, h2⟩]
  · intro h
    unfold weekendShift
    rw [h]
    norm_num
  · intro h
    unfold weekendShift
    rw [h]
    norm_num
  · intro h
    unfold weekendShift
    rw [if_neg (by omega)]
  · intro h5
    have hv : isValidDate occ := projectedOccurrence_valid b today occ hocc
    unfold weekendShift
    rw [if_pos h5]
    have had := (addDays_ordinal (7 - pyWeekday occ) occ hv).1
    have hwlt : pyWeekday occ < 7 := Nat.mod_lt _ (by omega)
    unfold pyWeekday at had h5 hwlt ⊢
    omega

/-- Claim C2, witness: today is Sunday 10.03.2024; the birthday
16.03.2024 is a Saturday six days away, so it is selected and reported
as Monday 18.03.2024 — eight days away, outside the seven-day window,
and not re-checked. -/
theorem weekend_shift_reporting_witness :
    birthdayLine
      { name := ("Ben").data, phones := [],
        birthday := some { year := 2024, month := 3, day := 16 } }
      { year := 2024, month := 3, day := 10 } 7 =
      .ok (some (("Name: Ben, birthday: 18.03.2024").data)) ∧
    weekendShift { year := 2024, month := 3, day := 16 } =
      addDays { year := 2024, month := 3, day := 16 } 2 ∧
    pyWeekday (weekendShift { year := 2024, month := 3, day := 16 }) = 0 ∧
    daysUntil (weekendShift { year := 2024, month := 3, day := 16 })
      { year := 2024, month := 3, day := 10 } = 8 := by
  have h := weekend_shift_reporting
    { name := ("Ben").data, phones := [],
      birthday := some { year := 2024, month := 3, day := 16 } }
    { year := 2024, month := 3, day := 16 }
    { year := 2024, month := 3, day := 10 }
    { year := 2024, month := 3, day := 16 } 7 rfl (by decide) (by decide) (by decide)
  refine ⟨?_, h.2.1 (by decide), h.2.2.2.2 (by decide), by decide⟩
  rw [h.1]
  decide

/-- Claim C10 (confirmed): when any record stores a February 29
birthday and the current year is not a leap year, substituting the
current year into the stored month and day raises inside the loop, so
the whole get_upcoming_birthdays call raises and no partial list is
returned. -/
theorem feb29_nonleap_raises :
    ∀ (book : AddressBook) (today : PyDate) (days : Int) (k : List Char)
      (r : Record) (b : PyDate),
      (k, r) ∈ book → r.birthday = some b → b.month = 2 → b.day = 29 →
      isLeap today.year = false →
      ∃ e, getUpcomingBirthdays book today days = .error e := by
  intro book today days k r b hmem hb hm hd hleap
  obtain ⟨e, he⟩ := birthdayLine_feb29_error r today days b hb hm hd hleap
  exact collectLines_error_of_mem (book.map (fun e => e.2)) today days r
    (List.mem_map.mpr ⟨(k, r), hmem, rfl⟩) e he

/-- Claim C10, witness: a one-record book with birthday 29.02.2000
queried when today lies in the non-leap year 2023. -/
theorem feb29_nonleap_raises_witness :
    ∃ e, getUpcomingBirthdays
      [((("Leap").data),
        { name := ("Leap").data, phones := [],
          birthday := some { year := 2000, month := 2, day := 29 } })]
      { year := 2023, month := 3, day := 10 } 7 = .error e :=
  feb29_nonleap_raises _ { year := 2023, month := 3, day := 10 } 7 (("Leap").data)
    { name := ("Leap").data, phones := [],
      birthday := some { year := 2000, month := 2, day := 29 } }
    { year := 2000, month := 2, day := 29 }
    (List.mem_cons_self _ _) rfl rfl rfl (by decide)

/-- Claim C9 (confirmed): load on a missing storage location or on one
with no readable data returns a fresh empty AddressBook without
raising; a pickled book is returned as is; only structurally corrupt
data raises, and the raised error is the unpickling error. -/
theorem load_missing_empty_fresh :
    loadData .missing = .ok ([] : AddressBook) ∧
    loadData .empty = .ok ([] : AddressBook) ∧
    (∀ book : AddressBook, loadData (.pickled book) = .ok book) ∧
    loadData .corrupt = .error .unpicklingError ∧
    (∀ s : StoreState, ∀ e : PyExc, loadData s = .error e → s = .corrupt) := by
  refine ⟨rfl, rfl, fun _ => rfl, rfl, ?_⟩
  intro s e h
  cases s with
  | missing => cases h
  | empty => cases h
  | pickled book => cases h
  | corrupt => rfl
